import Mathlib

/-!
Verification development for the agx terminal coding assistant.

The Rust sources are shallowly embedded: pure functions become Lean
functions, the filesystem becomes an explicit association list, the
LLM backend / user terminal / process launcher become oracles supplied
as arguments, and the turn engine (`Session::handle_prompt`) becomes a
recursive function over the script of model round-trip outcomes.
-/

namespace Agx

/-! ## Shell lexing (models the external `shlex` crate used by `CmdPattern::from_str`)

`shlex::split` performs POSIX-like word splitting: whitespace separates
words, single quotes group literally, double quotes group with backslash
escapes for `"`, backslash, dollar and backquote, a backslash outside
quotes escapes the next character, backslash-newline is a line
continuation, and an unclosed quote or trailing backslash makes the
whole split fail (`None`).
-/

/-- Word-separating whitespace for the shell lexer. -/
def isShWs (c : Char) : Bool :=
  c = ' ' || c = '\t' || c = '\n' || c = '\r'

/-- Lexer mode: outside quotes, inside single quotes, inside double
quotes, or just after a backslash (outside / inside double quotes). -/
inductive LexMode where
  | normal
  | insingle
  | indouble
  | escNormal
  | escDouble
deriving DecidableEq

/-- One-pass shell lexer: `mode` is the current lexing context,
`started` records whether a word is in progress (so quoted empty words
are kept and separators between words are recognized), `cur` its
accumulated characters. Returns the word list, or `none` on a lex error
(unclosed quote, dangling backslash). -/
def lexAll (mode : LexMode) (started : Bool) (cur : List Char) (s : List Char) :
    Option (List (List Char)) :=
  match s with
  | [] =>
    match mode with
    | .normal => if started then some [cur] else some []
    | _ => none
  | c :: rest =>
    match mode with
    | .normal =>
      if isShWs c then
        if started then (lexAll .normal false [] rest).map (cur :: ·)
        else lexAll .normal false [] rest
      else if c = '\'' then lexAll .insingle true cur rest
      else if c = '"' then lexAll .indouble true cur rest
      else if c = '\\' then lexAll .escNormal true cur rest
      else lexAll .normal true (cur ++ [c]) rest
    | .insingle =>
      if c = '\'' then lexAll .normal true cur rest
      else lexAll .insingle true (cur ++ [c]) rest
    | .indouble =>
      if c = '"' then lexAll .normal true cur rest
      else if c = '\\' then lexAll .escDouble true cur rest
      else lexAll .indouble true (cur ++ [c]) rest
    | .escNormal =>
      if c = '\n' then lexAll .normal started cur rest
      else lexAll .normal true (cur ++ [c]) rest
    | .escDouble =>
      if c = '\n' then lexAll .indouble true cur rest
      else if c = '"' || c = '\\' || c = '$' || c = '`' then
        lexAll .indouble true (cur ++ [c]) rest
      else lexAll .indouble true (cur ++ ['\\', c]) rest

/-- Models `shlex::split` from the external `shlex` crate. -/
def shlexSplit (s : String) : Option (List String) :=
  (lexAll .normal false [] s.data).map (fun ws => ws.map String.mk)

/-! ## Command patterns (src/domain/cmd.rs) -/

/-- Normalized identity of a command: first shell-lexed token plus, if
present, the second token (`CmdPattern` in src/domain/cmd.rs). -/
structure CmdPattern where
  binary : String
  first_arg : Option String
deriving DecidableEq, Repr

/-- `CmdPattern::from_str`: shell-lex the command; error when lexing
fails or yields no tokens; otherwise take the first token as the binary
and the second (if any) as the first argument. -/
def CmdPattern.fromStr (s : String) : Except String CmdPattern :=
  match shlexSplit s with
  | some (b :: rest) =>
    .ok { binary := b
          first_arg := match rest with
                       | a :: _ => some a
                       | [] => none }
  | some [] => .error "command is empty"
  | none => .error "command is empty"

/-- The approved-commands set (`ApprovedCmds`, a `HashSet<CmdPattern>`),
modelled as a list with membership semantics. -/
abbrev ApprovedCmds := List CmdPattern

/-- `ApprovedCmds::is_approved`: parse the command into its pattern and
test set membership; a parse failure means not approved. -/
def ApprovedCmds.is_approved (s : ApprovedCmds) (cmd : String) : Bool :=
  match CmdPattern.fromStr cmd with
  | .ok p => s.contains p
  | .error _ => false

/-- `ApprovedCmds::insert` (`HashSet::insert`: no duplicate is added). -/
def ApprovedCmds.insert (s : ApprovedCmds) (p : CmdPattern) : ApprovedCmds :=
  if s.contains p then s else p :: s

/-! ## Path validation (src/helpers/fs.rs) -/

/-- Split a character list on a separator character (used to model the
component decomposition of a Unix path). -/
def splitOnChar (sep : Char) (cur : List Char) (s : List Char) :
    List (List Char) :=
  match s with
  | [] => [cur]
  | c :: rest =>
    if c = sep then cur :: splitOnChar sep [] rest
    else splitOnChar sep (cur ++ [c]) rest

/-- `is_path_in_workspace`: a path is allowed when it is not absolute and
none of its components is the parent-directory component `..`.
Unix path semantics: absolute means leading `/`; components are the
`/`-separated segments. -/
def is_path_in_workspace (path : String) : Bool :=
  (match path.data with
   | '/' :: _ => false
   | _ => true)
  && !((splitOnChar '/' [] path.data).contains ['.', '.'])

/-! ## Filesystem model

The local filesystem is an association list from paths to nodes; the
first binding for a path wins, so prepending models overwriting.
I/O failures other than "not found" / wrong node kind (permission
errors etc.) are not modelled: the model filesystem always answers.
-/

/-- A filesystem node: a regular file with contents, or a directory. -/
inductive FsNode where
  | file (contents : List Char)
  | dir
deriving DecidableEq

/-- The filesystem: paths bound to nodes, earliest binding first. -/
abbrev Fs := List (String × FsNode)

/-- Look up the node at a path. -/
def fsGet (fs : Fs) (path : String) : Option FsNode :=
  match fs.find? (fun e => e.1 == path) with
  | some e => some e.2
  | none => none

/-- Write file contents at a path (create or overwrite). -/
def fsWrite (fs : Fs) (path : String) (contents : List Char) : Fs :=
  (path, .file contents) :: fs

/-! ## CreateFile (src/tools/create_file.rs) -/

structure CreateFileArgs where
  path : String
  contents : List Char
deriving DecidableEq

inductive CreateFileError where
  | invalidInput (msg : String)
  | pathNotAllowed
  | alreadyExists
  | isADir
deriving DecidableEq

structure CreateFileResponse where
  path : String
  num_bytes_written : Nat
deriving DecidableEq

/-- `CreateFileTool::call_inner`: reject an empty path, then a path
outside the workspace, then an existing node at the path; otherwise
write the contents (parent directories are created implicitly). Returns
the result together with the filesystem after the call. -/
def CreateFileTool.call_inner (fs : Fs) (args : CreateFileArgs) :
    Except CreateFileError CreateFileResponse × Fs :=
  if args.path = "" then
    (.error (.invalidInput "path cannot be empty"), fs)
  else if !is_path_in_workspace args.path then
    (.error .pathNotAllowed, fs)
  else
    match fsGet fs args.path with
    | some .dir => (.error .isADir, fs)
    | some (.file _) => (.error .alreadyExists, fs)
    | none =>
      (.ok { path := args.path, num_bytes_written := args.contents.length },
       fsWrite fs args.path args.contents)

/-! ## EditFile (src/tools/edit_file.rs) -/

structure EditFileArgs where
  path : String
  old_str : List Char
  new_str : List Char
deriving DecidableEq

inductive EditFileError where
  | invalidInput (msg : String)
  | pathNotAllowed
  | noChangesRequested
  | notAFile
  | fileDoesntExist
  | nothingWillChange
deriving DecidableEq

structure EditFileResponse where
  path : String
  num_bytes_written : Nat
deriving DecidableEq

/-- Replace all (leftmost, non-overlapping) occurrences of `old` by
`new`, as Rust's `str::replace`; `fuel` bounds the recursion and is
instantiated with the string length. An empty `old` is unreachable in
the tool (rejected earlier) and is treated as no occurrence. -/
def replaceAllFuel (fuel : Nat) (s old new : List Char) : List Char :=
  match fuel with
  | 0 => s
  | fuel + 1 =>
    match s with
    | [] => []
    | c :: rest =>
      if old ≠ [] ∧ old.isPrefixOf (c :: rest) then
        new ++ replaceAllFuel fuel ((c :: rest).drop old.length) old new
      else
        c :: replaceAllFuel fuel rest old new

/-- Models Rust `str::replace` (replace all occurrences). -/
def replaceAll (s old new : List Char) : List Char :=
  replaceAllFuel s.length s old new

/-- `EditFileTool::call_inner`: validation in source order (empty path,
empty `old_str`, `old == new`, workspace containment), then the file
must exist and be regular; replacing `old_str` must change the contents,
and only then is the file rewritten. Returns the result together with
the filesystem after the call. -/
def EditFileTool.call_inner (fs : Fs) (args : EditFileArgs) :
    Except EditFileError EditFileResponse × Fs :=
  if args.path = "" then
    (.error (.invalidInput "path cannot be empty"), fs)
  else if args.old_str = [] then
    (.error (.invalidInput "old_str cannot be empty"), fs)
  else if args.old_str = args.new_str then
    (.error .noChangesRequested, fs)
  else if !is_path_in_workspace args.path then
    (.error .pathNotAllowed, fs)
  else
    match fsGet fs args.path with
    | none => (.error .fileDoesntExist, fs)
    | some .dir => (.error .notAFile, fs)
    | some (.file oldContents) =>
      let newContents := replaceAll oldContents args.old_str args.new_str
      if oldContents = newContents then (.error .nothingWillChange, fs)
      else
        (.ok { path := args.path, num_bytes_written := newContents.length },
         fsWrite fs args.path newContents)

/-! ## ReadFile (src/tools/read_file.rs)

`ReadFileTool::call` reads the path directly; it performs no path
validation of any kind before the filesystem access.
-/

inductive ReadFileError where
  | couldntReadFile (reason : String)
deriving DecidableEq

/-- `ReadFileTool::call`. -/
def ReadFileTool.call (fs : Fs) (path : String) : Except ReadFileError (List Char) :=
  match fsGet fs path with
  | some (.file c) => .ok c
  | some .dir => .error (.couldntReadFile "is a directory")
  | none => .error (.couldntReadFile "no such file or directory")

/-! ## ReadDir (src/tools/read_dir.rs)

`ReadDirTool::call_inner` also performs no path validation before the
filesystem access.
-/

inductive EntryKind where
  | file
  | dir
deriving DecidableEq

structure DirEntry where
  name : String
  kind : EntryKind
  size : Option Nat
deriving DecidableEq

inductive ReadDirError where
  | couldntGetMetadata (reason : String)
  | pathNotADir
deriving DecidableEq

/-- The parent of a path: everything before its last `/`-component. -/
def parentPath (p : String) : String :=
  String.mk (List.intercalate ['/'] (splitOnChar '/' [] p.data).dropLast)

/-- One listed directory entry: full path as name, kind, and byte size
for files only (src/tools/read_dir.rs lines 102-114). -/
def dirEntryOf (e : String × FsNode) : DirEntry :=
  match e.2 with
  | .file c => { name := e.1, kind := .file, size := some c.length }
  | .dir => { name := e.1, kind := .dir, size := none }

/-- `ReadDirTool::call_inner`: the path must exist and be a directory;
entries are classified file/dir with sizes reported for files only. -/
def ReadDirTool.call_inner (fs : Fs) (path : String) :
    Except ReadDirError (List DirEntry) :=
  match fsGet fs path with
  | none => .error (.couldntGetMetadata "no such file or directory")
  | some (.file _) => .error .pathNotADir
  | some .dir =>
    .ok ((fs.filter (fun e => parentPath e.1 == path)).map dirEntryOf)

/-! ## RunCommand (src/tools/run_cmd.rs) -/

/-- `BLOCKED_CMD_PATTERNS`: the fixed deny-list, in source order. -/
def BLOCKED_CMD_PATTERNS : List String :=
  ["rm -rf", "sudo", "curl", "wget", "dd if=", "mkfs", "fdisk", "format",
   "deltree", "rmdir /s", "nc", "netcat", "telnet", "ssh-keygen", "passwd",
   "useradd", "userdel", "chmod 777", "chown root", "python -c", "perl -e",
   "ruby -e", "node -e"]

/-- Rust `str::contains(pat)`: does `pat` occur as a contiguous
substring of `s`? -/
def containsSub (pat : List Char) (s : List Char) : Bool :=
  match s with
  | [] => pat.isEmpty
  | _ :: rest => pat.isPrefixOf s || containsSub pat rest

/-- `containsSub` decides the infix relation. -/
theorem containsSub_iff (pat s : List Char) :
    containsSub pat s = true ↔ pat <:+: s := by
  induction s with
  | nil =>
    simp [containsSub, List.isEmpty_iff]
  | cons c rest ih =>
    simp [containsSub, List.infix_cons_iff, ih, List.isPrefixOf_iff_prefix]

/-- Rust `str::trim` (drop leading and trailing whitespace). -/
def trimChars (s : List Char) : List Char :=
  ((s.dropWhile Char.isWhitespace).reverse.dropWhile Char.isWhitespace).reverse

/-- The outcome of running a process to completion: exit code (`none`
when killed by a signal) and captured output. Supplied by an oracle
standing for the system shell. -/
structure ProcOutput where
  code : Option Int
  stdout : String
  stderr : String
deriving DecidableEq

inductive RunCmdError where
  | cmdIsEmpty
  | cmdContainsForbiddenPattern (p : String)
deriving DecidableEq

structure RunCmdResponse where
  success : Bool
  status_code : Option Int
  stdout : String
  stderr : String
deriving DecidableEq

/-- `RunCmdTool::call_inner`: reject an empty (after trimming) command,
then any command containing a deny-listed substring (first match in
list order); otherwise run the command via the shell oracle `run` and
wrap its status and output — a completed process is always `Ok`, the
exit status is only data in the payload. -/
def RunCmdTool.call_inner (run : String → ProcOutput) (cmd : String) :
    Except RunCmdError RunCmdResponse :=
  if trimChars cmd.data = [] then .error .cmdIsEmpty
  else
    match BLOCKED_CMD_PATTERNS.find? (fun p => containsSub p.data cmd.data) with
    | some p => .error (.cmdContainsForbiddenPattern p)
    | none =>
      let o := run cmd
      .ok { success := o.code == some 0
            status_code := o.code
            stdout := o.stdout
            stderr := o.stderr }

/-! ## JSON values and config persistence (src/config.rs, src/domain/config.rs)

Persistence is modelled at the JSON-value level: `serde_json`
serialization of the config becomes a function into a JSON value AST,
deserialization a function out of it. The byte-level JSON text encoding
is external (`serde_json`).
-/

inductive Json where
  | str (s : String)
  | num (n : Int)
  | jbool (b : Bool)
  | null
  | arr (xs : List Json)
  | obj (fields : List (String × Json))

/-- Fetch a field of a JSON object. -/
def jGetField (j : Json) (k : String) : Option Json :=
  match j with
  | .obj fs =>
    match fs.find? (fun f => f.1 == k) with
    | some f => some f.2
    | none => none
  | _ => none

/-- serde serialization of `CmdPattern`: `binary` always, `first_arg`
only when present (`skip_serializing_if = "Option::is_none"`). -/
def CmdPattern.toJson (p : CmdPattern) : Json :=
  .obj ([("binary", .str p.binary)] ++
    (match p.first_arg with
     | some a => [("first_arg", .str a)]
     | none => []))

/-- serde deserialization of `CmdPattern`: `binary` is a required
string; `first_arg` is an optional string (absent or `null` ↦ `None`). -/
def CmdPattern.fromJson (j : Json) : Except String CmdPattern :=
  match jGetField j "binary" with
  | some (.str b) =>
    match jGetField j "first_arg" with
    | none => .ok { binary := b, first_arg := none }
    | some .null => .ok { binary := b, first_arg := none }
    | some (.str a) => .ok { binary := b, first_arg := some a }
    | some _ => .error "invalid type: expected a string for first_arg"
  | some _ => .error "invalid type: expected a string for binary"
  | none =>
    match j with
    | .obj _ => .error "missing field binary"
    | _ => .error "invalid type: expected an object"

/-- serde serialization of `ApprovedCmds` (a set, emitted as an array). -/
def ApprovedCmds.toJson (s : ApprovedCmds) : Json :=
  .arr (s.map CmdPattern.toJson)

/-- Deserialize a JSON array of command patterns. -/
def cmdPatternsFromJson (xs : List Json) : Except String (List CmdPattern) :=
  match xs with
  | [] => .ok []
  | j :: rest => do
    let p ← CmdPattern.fromJson j
    let ps ← cmdPatternsFromJson rest
    .ok (p :: ps)

/-- The local config (`Config` in src/domain/config.rs): just the set of
approved command patterns. -/
structure Config where
  approved_commands : ApprovedCmds
deriving DecidableEq

/-- serde serialization of `Config`. -/
def Config.toJson (c : Config) : Json :=
  .obj [("approved_commands", c.approved_commands.toJson)]

/-- serde deserialization of `Config`: `approved_commands` carries
`#[serde(default)]`, so an absent field yields the empty set. -/
def Config.fromJson (j : Json) : Except String Config :=
  match j with
  | .obj _ =>
    match jGetField j "approved_commands" with
    | none => .ok { approved_commands := [] }
    | some (.arr xs) =>
      match cmdPatternsFromJson xs with
      | .ok ps => .ok { approved_commands := ps }
      | .error e => .error e
    | some _ => .error "invalid type: expected an array for approved_commands"
  | _ => .error "invalid type: expected an object"

/-- `get_config` (src/config.rs lines 21-36): a missing file defaults to
the empty config, malformed content is a load error, otherwise the
parsed config. The file contents stand as an already-lexed JSON value. -/
def get_config (file : Option Json) : Except String Config :=
  match file with
  | none => .ok { approved_commands := [] }
  | some j => Config.fromJson j

/-- `save_local_config` (src/config.rs lines 38-53): serialize the
config; the resulting value is what the config file will hold. -/
def save_local_config (c : Config) : Json :=
  Config.toJson c

/-! ## Tool invocations (src/tools/tool_call.rs) -/

structure ReadFileArgs where
  path : String
deriving DecidableEq

structure ReadDirArgs where
  path : String
deriving DecidableEq

structure RunCmdArgs where
  command : String
deriving DecidableEq

/-- The parsed, typed form of a tool call (`AgxToolCall`). -/
inductive AgxToolCall where
  | createFile (args : CreateFileArgs)
  | editFile (args : EditFileArgs)
  | readFile (args : ReadFileArgs)
  | readDir (args : ReadDirArgs)
  | runCmd (args : RunCmdArgs)
deriving DecidableEq

/-- A model-issued tool call as streamed by the backend: opaque id,
optional secondary call id, tool name, JSON argument payload. -/
structure ToolCall where
  id : String
  call_id : Option String
  name : String
  args : Json

/-- Fetch a string-typed field of a JSON object. -/
def jGetStr (j : Json) (k : String) : Option String :=
  match jGetField j k with
  | some (.str s) => some s
  | _ => none

/-- `TryFrom<ToolCall> for AgxToolCall`: dispatch on the tool name and
deserialize the JSON arguments; an unknown name or malformed arguments
is an error. -/
def AgxToolCall.tryFrom (tc : ToolCall) : Except String AgxToolCall :=
  match tc.name with
  | "create_file" =>
    match jGetStr tc.args "path", jGetStr tc.args "contents" with
    | some p, some c => .ok (.createFile { path := p, contents := c.data })
    | _, _ => .error "invalid arguments"
  | "edit_file" =>
    match jGetStr tc.args "path", jGetStr tc.args "old_str",
        jGetStr tc.args "new_str" with
    | some p, some o, some n =>
      .ok (.editFile { path := p, old_str := o.data, new_str := n.data })
    | _, _, _ => .error "invalid arguments"
  | "read_file" =>
    match jGetStr tc.args "path" with
    | some p => .ok (.readFile { path := p })
    | none => .error "invalid arguments"
  | "read_dir" =>
    match jGetStr tc.args "path" with
    | some p => .ok (.readDir { path := p })
    | none => .error "invalid arguments"
  | "run_cmd" =>
    match jGetStr tc.args "command" with
    | some c => .ok (.runCmd { command := c })
    | none => .error "invalid arguments"
  | other => .error ("unknown tool: " ++ other)

/-- `AgxToolCall::needs_confirmation`: only the mutating / executing
kinds are gated; reads bypass the gate. -/
def AgxToolCall.needs_confirmation (tc : AgxToolCall) : Bool :=
  match tc with
  | .editFile _ | .createFile _ | .runCmd _ => true
  | _ => false

/-! ## Approvals (src/session/hitl.rs) -/

inductive ApprovalLevel where
  | ask
  | approvedForSession
deriving DecidableEq

/-- `ApprovalLevel::is_approved`. -/
def ApprovalLevel.is_approved (l : ApprovalLevel) : Bool :=
  match l with
  | .approvedForSession => true
  | .ask => false

/-- The session's permission record (`Approvals`). -/
structure Approvals where
  create_file : ApprovalLevel
  edit_file : ApprovalLevel
  approved_cmds : ApprovedCmds
deriving DecidableEq

/-- `Approvals::save_approval_for_session`: record a durable approval
for the given call's kind; returns the updated record and the
confirmation message shown to the user (none when nothing was saved). -/
def Approvals.save_approval_for_session (a : Approvals) (tc : AgxToolCall) :
    Approvals × Option String :=
  match tc with
  | .createFile _ =>
    ({ a with create_file := .approvedForSession },
     some "will not ask for confirmation for creating files from now on")
  | .editFile _ =>
    ({ a with edit_file := .approvedForSession },
     some "will not ask for confirmation for editing files from now on")
  | .runCmd args =>
    match CmdPattern.fromStr args.command with
    | .ok p =>
      ({ a with approved_cmds := a.approved_cmds.insert p },
       some "will not ask for confirmation for running such commands from now on")
    | .error _ => (a, none)
  | _ => (a, none)

/-- Modelled from the spec: `Approvals::is_tool_call_approved` is called
by `Session::confirm_tool_call` (src/session/mod.rs line 479) but its
definition is not among the sources. Per spec §4.2: CreateFile/EditFile
check the session file-mutation approval, RunCommand computes its
command pattern and checks membership in the approved set; reads never
reach the gate. -/
def Approvals.is_tool_call_approved (a : Approvals) (tc : AgxToolCall) : Bool :=
  match tc with
  | .createFile _ => a.create_file.is_approved
  | .editFile _ => a.edit_file.is_approved
  | .runCmd args => a.approved_cmds.is_approved args.command
  | .readFile _ => false
  | .readDir _ => false

/-! ## The confirmation gate (src/session/mod.rs, `confirm_tool_call`) -/

/-- Outcome of the confirmation gate (`ToolCallConfirmation`). -/
inductive ToolCallConfirmation where
  | approved
  | autoApproved
  | rejected
  | feedbackProvided (text : String)
deriving DecidableEq

/-- The environment of one turn: everything outside the turn engine's
own state. `userAnswer round idx` is the confirmation-prompt line read
for the call at position `idx` of round `round` (`none` models a
readline error); `execInterrupt round idx` tells whether Ctrl-C wins the
race against that call's execution; `exec` is the execution outcome of
an approved invocation (`Ok` payload or error text — both are folded
into a tool result); `details` is the preview computation (it reads the
filesystem for the EditFile diff and can fail). -/
structure Env where
  skipHitl : Bool
  userAnswer : Nat → Nat → Option String
  execInterrupt : Nat → Nat → Bool
  exec : AgxToolCall → Except String String
  details : AgxToolCall → Except String (Option String)

/-- `Session::confirm_tool_call`: the `AGX_SKIP_HITL=1` escape hatch
returns `Approved` before anything else; a recorded approval returns
`AutoApproved` without interaction; otherwise the user is prompted:
empty or `y` approves once, `a` records the approval and auto-approves,
`n`/`no` rejects (as does a readline error), anything else is feedback. -/
def confirm_tool_call (env : Env) (round idx : Nat) (appr : Approvals)
    (tc : AgxToolCall) : ToolCallConfirmation × Approvals :=
  if env.skipHitl then (.approved, appr)
  else if appr.is_tool_call_approved tc then (.autoApproved, appr)
  else
    match env.userAnswer round idx with
    | none => (.rejected, appr)
    | some input =>
      let t := trimChars input.data
      if t = [] ∨ t = ['y'] then (.approved, appr)
      else if t = ['a'] then
        (.autoApproved, (appr.save_approval_for_session tc).1)
      else if t = ['n'] ∨ t = ['n', 'o'] then (.rejected, appr)
      else (.feedbackProvided (String.mk t), appr)

/-! ## The turn engine (src/session/mod.rs, `handle_prompt`) -/

/-- One tool result fed back to the model (`ToolResult`). -/
structure ToolResult where
  id : String
  call_id : Option String
  content : String

/-- `make_tool_result`. -/
def make_tool_result (id : String) (call_id : Option String) (text : String) :
    ToolResult :=
  { id := id, call_id := call_id, content := text }

/-- A committed conversation message. `assistant` carries the response
text (when non-empty) and the round's tool calls; `toolResults` is a
User message whose content is tool results. -/
inductive Message where
  | user (text : String)
  | assistant (text : Option String) (calls : List ToolCall)
  | toolResults (results : List ToolResult)

/-- The pending prompt for the next round: the user's text on the first
round, the previous round's tool results afterwards. -/
inductive Prompt where
  | text (s : String)
  | results (rs : List ToolResult)

/-- Commit a pending prompt to the history. -/
def promptMessage (p : Prompt) : Message :=
  match p with
  | .text s => .user s
  | .results rs => .toolResults rs

/-- What one `stream_llm_response` round produced: a completed response
(text and tool calls, in arrival order), a stream error, or a user
interrupt that won the race against the stream. -/
inductive RoundEvent where
  | ok (text : String) (calls : List ToolCall)
  | errStream
  | interrupted

/-- How the turn ended: no more tool calls requested (`completed`); the
batch loop returned after pushing a results message — user rejection or
mid-execution interrupt (`batchTerminated`); the stream failed or the
script of responses ran out (`streamFailed`); the user interrupted
during streaming (`streamInterrupted`). -/
inductive TurnEnd where
  | completed
  | batchTerminated
  | streamFailed
  | streamInterrupted
deriving DecidableEq

/-- Skip-results for every remaining call of an abandoned batch
(`Session::push_skipped_results`). -/
def push_skipped_results (remaining : List ToolCall) (reason : String) :
    List ToolResult :=
  remaining.map (fun tc => make_tool_result tc.id tc.call_id reason)

/-- Outcome of the per-round batch loop: `terminal` means the engine
pushes the results as a User message and returns (rejection or
mid-execution interrupt); `proceed` means the loop finished (normally or
by feedback break) and the results become the next pending prompt. -/
inductive BatchOutcome where
  | terminal (results : List ToolResult)
  | proceed (results : List ToolResult) (appr : Approvals)

/-- One call's confirmation phase: parse errors are handled by the
caller; here a needed confirmation may first fail computing details
(yielding an error result and `continue`), otherwise the gate runs;
calls that need no confirmation are directly `Approved`. -/
inductive ConfStep where
  | result (r : ToolResult)
  | conf (c : ToolCallConfirmation) (a : Approvals)

/-- The confirmation phase for one parsed call (src/session/mod.rs
lines 270-283). -/
def confirmStep (env : Env) (round idx : Nat) (appr : Approvals)
    (tc : ToolCall) (inv : AgxToolCall) : ConfStep :=
  if inv.needs_confirmation then
    match env.details inv with
    | .error e => .result (make_tool_result tc.id tc.call_id e)
    | .ok _ =>
      let ca := confirm_tool_call env round idx appr inv
      .conf ca.1 ca.2
  else .conf .approved appr

/-- The batch loop of `handle_prompt` (src/session/mod.rs lines
253-372): process each call in order, accumulating tool results. -/
def processCalls (env : Env) (round : Nat) :
    List ToolCall → Nat → Approvals → List ToolResult → BatchOutcome
  | [], _, appr, acc => .proceed acc appr
  | tc :: rest, idx, appr, acc =>
    match AgxToolCall.tryFrom tc with
    | .error e =>
      processCalls env round rest (idx + 1) appr
        (acc ++ [make_tool_result tc.id tc.call_id
          ("failed to parse tool call: " ++ e)])
    | .ok inv =>
      match confirmStep env round idx appr tc inv with
      | .result r => processCalls env round rest (idx + 1) appr (acc ++ [r])
      | .conf c appr2 =>
        match c with
        | .approved | .autoApproved =>
          if env.execInterrupt round idx then
            .terminal (acc ++
              [make_tool_result tc.id tc.call_id "tool call interrupted by user"] ++
              push_skipped_results rest
                "tool call skipped because user interrupted a previous tool call")
          else
            let out :=
              match env.exec inv with
              | .ok o => o
              | .error e => e
            processCalls env round rest (idx + 1) appr2
              (acc ++ [make_tool_result tc.id tc.call_id out])
        | .rejected =>
          .terminal (acc ++
            [make_tool_result tc.id tc.call_id "user rejected tool call"] ++
            push_skipped_results rest
              "tool call skipped because user rejected a previous tool call")
        | .feedbackProvided t =>
          .proceed (acc ++
            [make_tool_result tc.id tc.call_id
              ("user rejected tool call with feedback: " ++ t)] ++
            push_skipped_results rest
              "tool call skipped because user provided feedback on a previous tool call")
            appr2

/-- The round loop of `handle_prompt`: stream a completion for the
pending prompt, commit prompt and assistant message on success, run the
batch, and either stop or loop with the results as the next prompt.
Returns the final history, the number of model round-trips consumed,
and how the turn ended. A committed message is never removed. -/
def turnLoop (env : Env) :
    List RoundEvent → Nat → Prompt → Approvals → List Message →
    List Message × Nat × TurnEnd
  | [], _, _, _, hist => (hist, 0, .streamFailed)
  | ev :: rest, round, prompt, appr, hist =>
    match ev with
    | .interrupted => (hist, 1, .streamInterrupted)
    | .errStream => (hist, 1, .streamFailed)
    | .ok text calls =>
      let hist1 := hist ++ [promptMessage prompt]
      let hist2 :=
        if text = "" && calls.isEmpty then hist1
        else hist1 ++ [.assistant (if text = "" then none else some text) calls]
      if calls.isEmpty then (hist2, 1, .completed)
      else
        match processCalls env round calls 0 appr [] with
        | .terminal results => (hist2 ++ [.toolResults results], 1, .batchTerminated)
        | .proceed results appr2 =>
          if results.isEmpty then (hist2, 1, .completed)
          else
            let r := turnLoop env rest (round + 1) (.results results) appr2 hist2
            (r.1, r.2.1 + 1, r.2.2)

/-- `Session::handle_prompt`: run one full turn for the user's text,
starting from the given history and permission record, against the
script of model responses. -/
def handle_prompt (env : Env) (script : List RoundEvent) (userText : String)
    (appr : Approvals) (hist : List Message) : List Message × Nat × TurnEnd :=
  turnLoop env script 0 (.text userText) appr hist

/-! ## Counting committed tool calls and tool results -/

/-- Number of tool calls with the given id committed in assistant
messages. -/
def callCount (hist : List Message) (id : String) : Nat :=
  (hist.map (fun m =>
    match m with
    | .assistant _ calls => (calls.filter (fun tc => tc.id == id)).length
    | _ => 0)).sum

/-- Number of tool results with the given id in a result list. -/
def resultCountList (rs : List ToolResult) (id : String) : Nat :=
  (rs.filter (fun r => r.id == id)).length

/-- Number of tool results with the given id committed in the history. -/
def resultCount (hist : List Message) (id : String) : Nat :=
  (hist.map (fun m =>
    match m with
    | .toolResults rs => resultCountList rs id
    | _ => 0)).sum

/-- Number of calls with the given id in a call list. -/
def callCountList (calls : List ToolCall) (id : String) : Nat :=
  (calls.filter (fun tc => tc.id == id)).length

/-- Pending results carried by a prompt. -/
def promptResultCount (p : Prompt) (id : String) : Nat :=
  match p with
  | .text _ => 0
  | .results rs => resultCountList rs id

/-! ## Helper lemmas -/

/-- A non-whitespace member survives `dropWhile isWhitespace`. -/
theorem mem_dropWhile_of_not_ws (c : Char) (s : List Char)
    (hmem : c ∈ s) (hws : c.isWhitespace = false) :
    c ∈ s.dropWhile Char.isWhitespace := by
  induction s with
  | nil => cases hmem
  | cons d rest ih =>
    by_cases hd : d.isWhitespace
    · rw [List.dropWhile_cons_of_pos (by simpa using hd)]
      rcases List.mem_cons.mp hmem with rfl | hm
      · rw [hd] at hws; cases hws
      · exact ih hm
    · rw [List.dropWhile_cons_of_neg (by simpa using hd)]
      exact hmem

/-- A string containing a non-whitespace character does not trim to
nothing. -/
theorem trimChars_ne_nil_of_mem (c : Char) (s : List Char)
    (hmem : c ∈ s) (hws : c.isWhitespace = false) :
    trimChars s ≠ [] := by
  intro hnil
  unfold trimChars at hnil
  have h1 : c ∈ s.dropWhile Char.isWhitespace :=
    mem_dropWhile_of_not_ws c s hmem hws
  have h2 : c ∈ (s.dropWhile Char.isWhitespace).reverse.dropWhile Char.isWhitespace :=
    mem_dropWhile_of_not_ws c _ (List.mem_reverse.mpr h1) hws
  have h3 := List.reverse_eq_nil_iff.mp hnil
  rw [h3] at h2
  cases h2

/-- Replacing a pattern that does not occur leaves the string unchanged. -/
theorem replaceAllFuel_of_absent (fuel : Nat) (s old new : List Char)
    (h : ¬ old <:+: s) : replaceAllFuel fuel s old new = s := by
  induction fuel generalizing s with
  | zero => rfl
  | succ fuel ih =>
    match s with
    | [] => rfl
    | c :: rest =>
      rw [replaceAllFuel]
      have hpre : ¬ (old ≠ [] ∧ old.isPrefixOf (c :: rest)) := by
        rintro ⟨-, hp⟩
        exact h (List.IsPrefix.isInfix (List.isPrefixOf_iff_prefix.mp hp))
      rw [if_neg hpre]
      have hrest : ¬ old <:+: rest := fun hr => h (List.infix_cons hr)
      rw [ih rest hrest]

/-- Replacing a pattern that does not occur leaves the string unchanged. -/
theorem replaceAll_of_absent (s old new : List Char) (h : ¬ old <:+: s) :
    replaceAll s old new = s :=
  replaceAllFuel_of_absent s.length s old new h

/-! ## C7 — EditFile no-op errors -/

/-- C7: `EditFile` fails with the `NoChangesRequested` error when
`old_str` equals `new_str` (checked before any filesystem access), and
with the `NothingWillChange` error when `old_str` does not occur in the
file; in both cases the filesystem is unchanged. -/
theorem edit_file_noop_errors :
    (∀ (fs : Fs) (args : EditFileArgs), args.path ≠ "" → args.old_str ≠ [] →
       args.old_str = args.new_str →
       EditFileTool.call_inner fs args = (.error .noChangesRequested, fs)) ∧
    (∀ (fs : Fs) (args : EditFileArgs) (contents : List Char),
       args.path ≠ "" → args.old_str ≠ [] → args.old_str ≠ args.new_str →
       is_path_in_workspace args.path = true →
       fsGet fs args.path = some (.file contents) →
       ¬ args.old_str <:+: contents →
       EditFileTool.call_inner fs args = (.error .nothingWillChange, fs)) := by
  constructor
  · intro fs args hp ho heq
    unfold EditFileTool.call_inner
    rw [if_neg hp, if_neg ho, if_pos heq]
  · intro fs args contents hp ho hne hws hget hninf
    unfold EditFileTool.call_inner
    rw [if_neg hp, if_neg ho, if_neg hne, if_neg (by simp [hws]), hget]
    simp [replaceAll_of_absent contents args.old_str args.new_str hninf]

/-- Witness for C7 at a concrete filesystem and arguments. -/
theorem edit_file_noop_errors_witness :
    EditFileTool.call_inner [("a.txt", .file "hello".data)]
        { path := "a.txt", old_str := "x".data, new_str := "x".data } =
      (.error .noChangesRequested, [("a.txt", .file "hello".data)]) ∧
    EditFileTool.call_inner [("a.txt", .file "hello".data)]
        { path := "a.txt", old_str := "zz".data, new_str := "y".data } =
      (.error .nothingWillChange, [("a.txt", .file "hello".data)]) := by
  constructor
  · exact edit_file_noop_errors.1 _ _ (by decide) (by decide) (by decide)
  · exact edit_file_noop_errors.2 _ _ "hello".data (by decide) (by decide)
      (by decide) (by decide) (by decide) (by decide)

/-! ## C8 — RunCommand completion is always Ok -/

/-- C8: a RunCommand invocation that passes validation (non-blank, no
deny-listed substring) and whose process runs to completion returns an
`Ok` response carrying exit status, stdout and stderr — whatever the
exit code; a non-zero exit never becomes an engine-level error. -/
theorem run_cmd_completion_is_ok (run : String → ProcOutput) (cmd : String)
    (h1 : trimChars cmd.data ≠ [])
    (h2 : ∀ p ∈ BLOCKED_CMD_PATTERNS, containsSub p.data cmd.data = false) :
    RunCmdTool.call_inner run cmd =
      .ok { success := (run cmd).code == some 0
            status_code := (run cmd).code
            stdout := (run cmd).stdout
            stderr := (run cmd).stderr } := by
  rw [RunCmdTool.call_inner, if_neg h1]
  have hfind : BLOCKED_CMD_PATTERNS.find?
      (fun p => containsSub p.data cmd.data) = none :=
    List.find?_eq_none.mpr (by intro p hp; simp [h2 p hp])
  rw [hfind]

/-- Witness for C8: a command exiting with status 2 still yields `Ok`. -/
theorem run_cmd_completion_is_ok_witness :
    RunCmdTool.call_inner (fun _ => ⟨some 2, "", "no such file"⟩) "ls missing" =
      .ok { success := false, status_code := some 2, stdout := ""
            stderr := "no such file" } := by
  have h := run_cmd_completion_is_ok (fun _ => ⟨some 2, "", "no such file"⟩)
    "ls missing" (by decide) (by decide)
  simpa using h

/-! ## C9 — config persistence round-trip -/

/-- Deserializing a serialized command pattern recovers it exactly. -/
theorem cmd_pattern_json_roundtrip (p : CmdPattern) :
    CmdPattern.fromJson (CmdPattern.toJson p) = .ok p := by
  match p with
  | ⟨b, none⟩ => simp [CmdPattern.toJson, CmdPattern.fromJson, jGetField]
  | ⟨b, some a⟩ => simp [CmdPattern.toJson, CmdPattern.fromJson, jGetField]

/-- Deserializing a serialized pattern list recovers it exactly. -/
theorem cmd_patterns_json_roundtrip (ps : List CmdPattern) :
    cmdPatternsFromJson (ps.map CmdPattern.toJson) = .ok ps := by
  induction ps with
  | nil => rfl
  | cons p rest ih =>
    simp [cmdPatternsFromJson, cmd_pattern_json_roundtrip p, ih, bind, Except.bind]

/-- C9: saving the config (serializing the approved command-pattern set)
and loading it back yields the identical config — so the set of approved
command patterns, and therefore every approval decision, survives the
round-trip. -/
theorem config_round_trip (c : Config) :
    get_config (some (save_local_config c)) = .ok c := by
  simp [get_config, save_local_config, Config.toJson, Config.fromJson,
    jGetField, ApprovedCmds.toJson, cmd_patterns_json_roundtrip]

/-! ## C10 — the AGX_SKIP_HITL escape hatch -/

/-- C10: with `AGX_SKIP_HITL=1` the confirmation gate returns `Approved`
for every tool invocation — file mutations and commands included —
without consulting the permission record (the result holds for every
`appr`) and without any user interaction (it holds for every answer
oracle), leaving the permission record untouched. -/
theorem skip_hitl_bypasses_gate (env : Env) (round idx : Nat)
    (appr : Approvals) (tc : AgxToolCall) (h : env.skipHitl = true) :
    confirm_tool_call env round idx appr tc = (.approved, appr) := by
  simp [confirm_tool_call, h]

/-- Witness for C10: a file-mutating call is approved with no
interaction under `AGX_SKIP_HITL=1`. -/
theorem skip_hitl_bypasses_gate_witness :
    confirm_tool_call
      ⟨true, fun _ _ => none, fun _ _ => false, fun _ => .ok "",
       fun _ => .ok none⟩
      0 0 ⟨.ask, .ask, []⟩
      (.createFile { path := "a.txt", contents := "hi".data }) =
    (.approved, ⟨.ask, .ask, []⟩) :=
  skip_hitl_bypasses_gate _ 0 0 _ _ rfl

/-! ## C2 — command-pattern approval matching -/

/-- C2 counterexample: the claim says a stored pattern
`(git, first_arg := none)` matches `"git status"`; on the code,
`is_approved` derives the pattern of the *command* (`(git, some status)`)
and tests exact membership, so it does not match. -/
theorem cmd_pattern_matching_counterexample :
    ApprovedCmds.is_approved [{ binary := "git", first_arg := none }]
      "git status" = false := by
  decide

/-- C2 amended: a stored pattern matches exactly the invocations whose
own derived pattern (first shell token plus optional second token)
equals it. A pattern without a first argument matches only invocations
of the binary with no further argument; one with a first argument
matches exactly the invocations sharing it. In particular
`(git, commit)` matches `"git commit -m x"` but not `"git push"`, and
`(git, none)` matches `"git"` but not `"git status"`. -/
theorem cmd_pattern_matching_amended :
    (∀ (s : ApprovedCmds) (cmd b a : String) (rest : List String),
       shlexSplit cmd = some (b :: a :: rest) →
       ApprovedCmds.is_approved s cmd =
         s.contains { binary := b, first_arg := some a }) ∧
    (∀ (s : ApprovedCmds) (cmd b : String),
       shlexSplit cmd = some [b] →
       ApprovedCmds.is_approved s cmd =
         s.contains { binary := b, first_arg := none }) ∧
    ApprovedCmds.is_approved [{ binary := "git", first_arg := some "commit" }]
      "git commit -m x" = true ∧
    ApprovedCmds.is_approved [{ binary := "git", first_arg := some "commit" }]
      "git push" = false ∧
    ApprovedCmds.is_approved [{ binary := "git", first_arg := none }]
      "git" = true ∧
    ApprovedCmds.is_approved [{ binary := "git", first_arg := none }]
      "git status" = false := by
  refine ⟨?_, ?_, by decide, by decide, by decide, by decide⟩
  · intro s cmd b a rest h
    simp [ApprovedCmds.is_approved, CmdPattern.fromStr, h]
  · intro s cmd b h
    simp [ApprovedCmds.is_approved, CmdPattern.fromStr, h]

/-- Witness for C2 (amended) at concrete commands and stores. -/
theorem cmd_pattern_matching_amended_witness :
    ApprovedCmds.is_approved [{ binary := "rm", first_arg := some "-rf" }]
      "rm -rf /tmp/x" = true ∧
    ApprovedCmds.is_approved [{ binary := "ls", first_arg := none }]
      "ls" = true := by
  constructor
  · rw [cmd_pattern_matching_amended.1
      [{ binary := "rm", first_arg := some "-rf" }]
      "rm -rf /tmp/x" "rm" "-rf" ["/tmp/x"] (by decide)]
    decide
  · rw [cmd_pattern_matching_amended.2.1
      [{ binary := "ls", first_arg := none }] "ls" "ls" (by decide)]
    decide

/-! ## C3 — path validation before filesystem access -/

/-- C3 counterexample: the claim says every filesystem tool rejects
absolute or parent-traversal paths before any filesystem access, but
`ReadFileTool::call` performs no path validation: it happily reads an
absolute path the validator rejects. -/
theorem path_validation_counterexample :
    ReadFileTool.call [("/etc/passwd", .file "root:x:0:0".data)]
      "/etc/passwd" = .ok "root:x:0:0".data ∧
    is_path_in_workspace "/etc/passwd" = false :=
  ⟨rfl, by decide⟩

/-- C3 amended: only the mutating filesystem tools validate paths —
CreateFile and EditFile reject an absolute or parent-traversal path
before touching the filesystem (once their earlier argument checks
pass), while ReadFile and ReadDir perform the filesystem access with no
path validation at all. -/
theorem path_validation_amended :
    (∀ (fs : Fs) (args : CreateFileArgs), args.path ≠ "" →
       is_path_in_workspace args.path = false →
       CreateFileTool.call_inner fs args = (.error .pathNotAllowed, fs)) ∧
    (∀ (fs : Fs) (args : EditFileArgs), args.path ≠ "" →
       args.old_str ≠ [] → args.old_str ≠ args.new_str →
       is_path_in_workspace args.path = false →
       EditFileTool.call_inner fs args = (.error .pathNotAllowed, fs)) ∧
    (∀ (fs : Fs) (path : String) (c : List Char),
       fsGet fs path = some (.file c) →
       ReadFileTool.call fs path = .ok c) ∧
    (∀ (fs : Fs) (path : String),
       fsGet fs path = some .dir →
       ReadDirTool.call_inner fs path =
         .ok ((fs.filter (fun e => parentPath e.1 == path)).map dirEntryOf)) := by
  refine ⟨?_, ?_, ?_, ?_⟩
  · intro fs args hp hws
    unfold CreateFileTool.call_inner
    rw [if_neg hp, if_pos (by simp [hws])]
  · intro fs args hp ho hne hws
    unfold EditFileTool.call_inner
    rw [if_neg hp, if_neg ho, if_neg hne, if_pos (by simp [hws])]
  · intro fs path c hget
    unfold ReadFileTool.call
    rw [hget]
  · intro fs path hget
    unfold ReadDirTool.call_inner
    rw [hget]

/-- Witness for C3 (amended) on a concrete filesystem. -/
theorem path_validation_amended_witness :
    CreateFileTool.call_inner [] { path := "/etc/x", contents := [] } =
      (.error .pathNotAllowed, []) ∧
    EditFileTool.call_inner [] { path := "../x", old_str := "a".data
                                 new_str := "b".data } =
      (.error .pathNotAllowed, []) ∧
    ReadFileTool.call [("/etc/passwd", .file "pw".data)] "/etc/passwd" =
      .ok "pw".data ∧
    ReadDirTool.call_inner [("..", .dir)] ".." =
      .ok (([("..", FsNode.dir)].filter
        (fun e => parentPath e.1 == "..")).map dirEntryOf) := by
  refine ⟨?_, ?_, ?_, ?_⟩
  · exact path_validation_amended.1 [] _ (by decide) (by decide)
  · exact path_validation_amended.2.1 [] _ (by decide) (by decide) (by decide)
      (by decide)
  · exact path_validation_amended.2.2.1 _ "/etc/passwd" "pw".data (by decide)
  · exact path_validation_amended.2.2.2 [("..", FsNode.dir)] ".." (by decide)

/-! ## C4 — the deny-list overrides approval -/

/-- C4: a RunCommand whose command contains the deny-listed substring
`rm -rf` always fails validation with the forbidden-pattern error — the
execution path checks the deny-list regardless of any approval — while
an "always approve" grant only makes the gate auto-approve (skipping the
prompt); it never skips the deny-list check. -/
theorem deny_list_overrides_approval (run : String → ProcOutput)
    (cmd : String) (env : Env) (round idx : Nat) (appr : Approvals)
    (h : containsSub "rm -rf".data cmd.data = true) :
    RunCmdTool.call_inner run cmd =
      .error (.cmdContainsForbiddenPattern "rm -rf") ∧
    (env.skipHitl = false → appr.approved_cmds.is_approved cmd = true →
      confirm_tool_call env round idx appr (.runCmd { command := cmd }) =
        (.autoApproved, appr)) := by
  constructor
  · have hinf : "rm -rf".data <:+: cmd.data := (containsSub_iff _ _).mp h
    have hmem : 'r' ∈ cmd.data := by
      obtain ⟨pre, post, hpp⟩ := hinf
      rw [← hpp]
      exact List.mem_append.mpr
        (Or.inl (List.mem_append.mpr (Or.inr (by decide))))
    have htrim : trimChars cmd.data ≠ [] :=
      trimChars_ne_nil_of_mem 'r' cmd.data hmem (by decide)
    rw [RunCmdTool.call_inner, if_neg htrim]
    have hfind : BLOCKED_CMD_PATTERNS.find?
        (fun p => containsSub p.data cmd.data) = some "rm -rf" := by
      rw [BLOCKED_CMD_PATTERNS]
      rw [List.find?_cons_of_pos _ (by simpa using h)]
    rw [hfind]
  · intro hskip happr
    rw [confirm_tool_call, if_neg (by simp [hskip])]
    rw [if_pos (by simp [Approvals.is_tool_call_approved, happr])]

/-- Witness for C4: `rm -rf /tmp/x` with its very pattern in the
approved set — the gate auto-approves, the execution still rejects. -/
theorem deny_list_overrides_approval_witness :
    RunCmdTool.call_inner (fun _ => ⟨some 0, "", ""⟩) "rm -rf /tmp/x" =
      .error (.cmdContainsForbiddenPattern "rm -rf") ∧
    confirm_tool_call
      ⟨false, fun _ _ => none, fun _ _ => false, fun _ => .ok "",
       fun _ => .ok none⟩
      0 0 ⟨.ask, .ask, [{ binary := "rm", first_arg := some "-rf" }]⟩
      (.runCmd { command := "rm -rf /tmp/x" }) =
    (.autoApproved, ⟨.ask, .ask, [{ binary := "rm", first_arg := some "-rf" }]⟩) := by
  have h := deny_list_overrides_approval (fun _ => ⟨some 0, "", ""⟩)
    "rm -rf /tmp/x"
    ⟨false, fun _ _ => none, fun _ _ => false, fun _ => .ok "",
     fun _ => .ok none⟩
    0 0 ⟨.ask, .ask, [{ binary := "rm", first_arg := some "-rf" }]⟩
    (by decide)
  exact ⟨h.1, h.2 rfl (by decide)⟩

/-! ## C6 — rejection ends the turn with skip markers -/

/-- C6: when the gate rejects a call of a batch, the engine records a
"user rejected tool call" result for it and a skipped-because-rejected
result for every remaining call, commits them all as one User message,
and ends the turn after the single round-trip already performed — the
rest of the script is never consumed, whatever it holds. -/
theorem rejection_ends_turn (env : Env) (rest2 : List RoundEvent)
    (text : String) (tcA : ToolCall) (others : List ToolCall)
    (invA : AgxToolCall) (u : String) (appr appr2 : Approvals)
    (hist : List Message) (d : Option String)
    (h1 : AgxToolCall.tryFrom tcA = .ok invA)
    (h2 : invA.needs_confirmation = true)
    (h3 : env.details invA = .ok d)
    (h4 : confirm_tool_call env 0 0 appr invA = (.rejected, appr2)) :
    handle_prompt env (.ok text (tcA :: others) :: rest2) u appr hist =
      (hist ++ [Message.user u,
        .assistant (if text = "" then none else some text) (tcA :: others),
        .toolResults
          (make_tool_result tcA.id tcA.call_id "user rejected tool call" ::
           push_skipped_results others
             "tool call skipped because user rejected a previous tool call")],
       1, .batchTerminated) := by
  rw [handle_prompt, turnLoop]
  rw [processCalls, h1]
  simp only [confirmStep, h2, h3, h4, if_true]
  simp [promptMessage]

/-- Witness for C6: batch [A, B, C], the user answers `n` on A. -/
theorem rejection_ends_turn_witness :
    handle_prompt
      ⟨false, fun _ _ => some "n", fun _ _ => false, fun _ => .ok "",
       fun _ => .ok none⟩
      [.ok "" [⟨"A", none, "run_cmd", .obj [("command", .str "ls")]⟩,
               ⟨"B", none, "read_file", .obj [("path", .str "f")]⟩,
               ⟨"C", none, "read_file", .obj [("path", .str "g")]⟩],
       .ok "never reached" []]
      "do things" ⟨.ask, .ask, []⟩ [] =
      ([Message.user "do things",
        .assistant (if "" = "" then none else some "")
          [⟨"A", none, "run_cmd", .obj [("command", .str "ls")]⟩,
           ⟨"B", none, "read_file", .obj [("path", .str "f")]⟩,
           ⟨"C", none, "read_file", .obj [("path", .str "g")]⟩],
        .toolResults
          (make_tool_result "A" none "user rejected tool call" ::
           push_skipped_results
             [⟨"B", none, "read_file", .obj [("path", .str "f")]⟩,
              ⟨"C", none, "read_file", .obj [("path", .str "g")]⟩]
             "tool call skipped because user rejected a previous tool call")],
       1, .batchTerminated) := by
  have h := rejection_ends_turn
    ⟨false, fun _ _ => some "n", fun _ _ => false, fun _ => .ok "",
     fun _ => .ok none⟩
    [.ok "never reached" []] ""
    ⟨"A", none, "run_cmd", .obj [("command", .str "ls")]⟩
    [⟨"B", none, "read_file", .obj [("path", .str "f")]⟩,
     ⟨"C", none, "read_file", .obj [("path", .str "g")]⟩]
    (.runCmd { command := "ls" }) "do things"
    ⟨.ask, .ask, []⟩ ⟨.ask, .ask, []⟩ [] none rfl rfl rfl rfl
  simpa using h

/-! ## Demo environment and rounds (shared by the turn-engine claims) -/

/-- A benign environment: HITL active, no user answers needed, no
interrupts, every execution succeeds, details always available. -/
def demoEnv : Env :=
  ⟨false, fun _ _ => none, fun _ _ => false, fun _ => .ok "file contents",
   fun _ => .ok none⟩

/-- A read-only tool call (never gated). -/
def demoReadCall : ToolCall :=
  ⟨"id1", none, "read_file", .obj [("path", .str "f.txt")]⟩

/-- A model response consisting of one read-only tool call. -/
def demoToolRound : RoundEvent := .ok "" [demoReadCall]

/-- The empty permission record. -/
def noApprovals : Approvals := ⟨.ask, .ask, []⟩

/-! ## C5 — the per-turn round-trip count -/

/-- A script of `n` tool-call-bearing responses drives exactly `n`
round-trips through the loop of `handle_prompt`. -/
theorem turnLoop_replicate_rounds (n : Nat) :
    ∀ (round : Nat) (p : Prompt) (appr : Approvals) (hist : List Message),
      (turnLoop demoEnv (List.replicate n demoToolRound) round p appr hist).2.1
        = n := by
  induction n with
  | zero => intro round p appr hist; rfl
  | succ n ih =>
    intro round p appr hist
    rw [List.replicate_succ]
    have hstep : turnLoop demoEnv (demoToolRound :: List.replicate n demoToolRound)
        round p appr hist =
      ((turnLoop demoEnv (List.replicate n demoToolRound) (round + 1)
          (.results [make_tool_result "id1" none "file contents"]) appr
          ((hist ++ [promptMessage p]) ++
            [Message.assistant none [demoReadCall]])).1,
       (turnLoop demoEnv (List.replicate n demoToolRound) (round + 1)
          (.results [make_tool_result "id1" none "file contents"]) appr
          ((hist ++ [promptMessage p]) ++
            [Message.assistant none [demoReadCall]])).2.1 + 1,
       (turnLoop demoEnv (List.replicate n demoToolRound) (round + 1)
          (.results [make_tool_result "id1" none "file contents"]) appr
          ((hist ++ [promptMessage p]) ++
            [Message.assistant none [demoReadCall]])).2.2) := rfl
    rw [hstep]
    rw [ih]

/-- C5 counterexample: the claim caps every turn at 30 model
round-trips, but a model that keeps issuing tool calls drives the loop
31 times (and beyond) — `handle_prompt` has no round-trip bound. -/
theorem round_trip_cap_counterexample :
    (handle_prompt demoEnv (List.replicate 31 demoToolRound) "go"
      noApprovals []).2.1 = 31 ∧ 30 < 31 := by
  constructor
  · rw [handle_prompt]
    exact turnLoop_replicate_rounds 31 0 _ _ _
  · decide

/-- C5 amended: the stream/execute loop of a turn has no fixed
round-trip bound — for every `n`, a model that answers each round with a
tool call drives exactly `n` round-trips; the loop ends only when a
round produces no tool calls (or the turn is aborted or terminated). -/
theorem round_trips_unbounded (n : Nat) :
    (handle_prompt demoEnv (List.replicate n demoToolRound) "go"
      noApprovals []).2.1 = n := by
  rw [handle_prompt]
  exact turnLoop_replicate_rounds n 0 _ _ _

/-! ## C1 — the request/result pairing invariant -/

/-- The results carried by a batch outcome, whichever way it ended. -/
def batchResults (b : BatchOutcome) : List ToolResult :=
  match b with
  | .terminal rs => rs
  | .proceed rs _ => rs

theorem callCount_append (a b : List Message) (id : String) :
    callCount (a ++ b) id = callCount a id + callCount b id := by
  simp [callCount]

theorem resultCount_append (a b : List Message) (id : String) :
    resultCount (a ++ b) id = resultCount a id + resultCount b id := by
  simp [resultCount]

theorem callCount_promptMessage (p : Prompt) (id : String) :
    callCount [promptMessage p] id = 0 := by
  cases p <;> simp [promptMessage, callCount]

theorem resultCount_promptMessage (p : Prompt) (id : String) :
    resultCount [promptMessage p] id = promptResultCount p id := by
  cases p <;> simp [promptMessage, resultCount, promptResultCount]

theorem callCount_assistant (t : Option String) (calls : List ToolCall)
    (id : String) :
    callCount [.assistant t calls] id = callCountList calls id := by
  simp [callCount, callCountList]

theorem resultCount_assistant (t : Option String) (calls : List ToolCall)
    (id : String) : resultCount [.assistant t calls] id = 0 := by
  simp [resultCount]

theorem callCount_toolResults (rs : List ToolResult) (id : String) :
    callCount [.toolResults rs] id = 0 := by
  simp [callCount]

theorem resultCount_toolResults (rs : List ToolResult) (id : String) :
    resultCount [.toolResults rs] id = resultCountList rs id := by
  simp [resultCount]

theorem resultCountList_append (a b : List ToolResult) (id : String) :
    resultCountList (a ++ b) id = resultCountList a id + resultCountList b id := by
  simp [resultCountList]

theorem resultCountList_singleton (i : String) (c : Option String)
    (t id : String) :
    resultCountList [make_tool_result i c t] id = if i == id then 1 else 0 := by
  simp only [resultCountList, make_tool_result, List.filter]
  split <;> simp_all

theorem callCountList_cons (tc : ToolCall) (rest : List ToolCall) (id : String) :
    callCountList (tc :: rest) id =
      (if tc.id == id then 1 else 0) + callCountList rest id := by
  simp only [callCountList, List.filter]
  split
  · simp_all
    omega
  · simp_all

theorem push_skipped_results_count (rest : List ToolCall) (reason id : String) :
    resultCountList (push_skipped_results rest reason) id =
      callCountList rest id := by
  induction rest with
  | nil => rfl
  | cons tc r ih =>
    simp only [push_skipped_results, List.map] at ih ⊢
    rw [show make_tool_result tc.id tc.call_id reason ::
          r.map (fun tc => make_tool_result tc.id tc.call_id reason) =
        [make_tool_result tc.id tc.call_id reason] ++
          r.map (fun tc => make_tool_result tc.id tc.call_id reason) from rfl]
    rw [resultCountList_append, resultCountList_singleton, ih,
      callCountList_cons]

/-- Every call of a batch contributes exactly one result, whichever way
each call went (parse error, details error, execution, rejection,
feedback, interruption, skip). -/
theorem processCalls_counts (env : Env) (round : Nat) (id : String) :
    ∀ (calls : List ToolCall) (idx : Nat) (appr : Approvals)
      (acc : List ToolResult),
      resultCountList (batchResults (processCalls env round calls idx appr acc)) id
        = resultCountList acc id + callCountList calls id := by
  intro calls
  induction calls with
  | nil =>
    intro idx appr acc
    simp [processCalls, batchResults, callCountList]
  | cons tc rest ih =>
    intro idx appr acc
    rw [callCountList_cons]
    match htf : AgxToolCall.tryFrom tc with
    | .error e =>
      simp only [processCalls, htf]
      rw [ih, resultCountList_append, resultCountList_singleton]
      omega
    | .ok inv =>
      match hcs : confirmStep env round idx appr tc inv with
      | .result r =>
        have hr : r.id = tc.id := by
          rw [confirmStep] at hcs
          split at hcs
          · match hd : env.details inv with
            | .error e2 =>
              rw [hd] at hcs
              cases hcs
              rfl
            | .ok d =>
              rw [hd] at hcs
              cases hcs
          · cases hcs
        simp only [processCalls, htf, hcs]
        rw [ih, resultCountList_append]
        have hone : resultCountList [r] id = if tc.id == id then 1 else 0 := by
          rw [← hr]
          simp only [resultCountList, List.filter]
          split <;> simp_all
        rw [hone]
        omega
      | .conf c appr2 =>
        simp only [processCalls, htf, hcs]
        cases c with
        | approved =>
          by_cases hint : env.execInterrupt round idx = true
          · rw [if_pos hint]
            simp only [batchResults]
            rw [resultCountList_append, resultCountList_append,
              resultCountList_singleton, push_skipped_results_count]
            omega
          · rw [if_neg hint]
            rw [ih, resultCountList_append, resultCountList_singleton]
            omega
        | autoApproved =>
          by_cases hint : env.execInterrupt round idx = true
          · rw [if_pos hint]
            simp only [batchResults]
            rw [resultCountList_append, resultCountList_append,
              resultCountList_singleton, push_skipped_results_count]
            omega
          · rw [if_neg hint]
            rw [ih, resultCountList_append, resultCountList_singleton]
            omega
        | rejected =>
          simp only [batchResults]
          rw [resultCountList_append, resultCountList_append,
            resultCountList_singleton, push_skipped_results_count]
          omega
        | feedbackProvided t =>
          simp only [batchResults]
          rw [resultCountList_append, resultCountList_append,
            resultCountList_singleton, push_skipped_results_count]
          omega

/-- The loop invariant: if the committed calls exceed the committed
results exactly by the results still pending in the prompt, then any
turn that ends normally (`completed`) or by a terminated batch
(`batchTerminated`) leaves calls and results balanced for every id. -/
theorem turnLoop_pairing (env : Env) (id : String) :
    ∀ (script : List RoundEvent) (round : Nat) (p : Prompt)
      (appr : Approvals) (hist : List Message),
      callCount hist id = resultCount hist id + promptResultCount p id →
      ((turnLoop env script round p appr hist).2.2 = .completed ∨
       (turnLoop env script round p appr hist).2.2 = .batchTerminated) →
      callCount (turnLoop env script round p appr hist).1 id =
        resultCount (turnLoop env script round p appr hist).1 id := by
  intro script
  induction script with
  | nil =>
    intro round p appr hist _ hend
    simp [turnLoop] at hend
  | cons ev rest ih =>
    intro round p appr hist hbal hend
    match ev with
    | .interrupted => simp [turnLoop] at hend
    | .errStream => simp [turnLoop] at hend
    | .ok text calls =>
      have hh1 : callCount (hist ++ [promptMessage p]) id =
          resultCount (hist ++ [promptMessage p]) id := by
        rw [callCount_append, resultCount_append, callCount_promptMessage,
          resultCount_promptMessage, hbal]
        omega
      cases hce : calls.isEmpty with
      | true =>
        have hcnil : calls = [] := by
          cases calls with
          | nil => rfl
          | cons a b => simp [List.isEmpty] at hce
        subst hcnil
        simp only [turnLoop, List.isEmpty_nil, Bool.and_true, if_true] at hend ⊢
        split
        · exact hh1
        · rw [callCount_append, resultCount_append, callCount_assistant,
            resultCount_assistant]
          simp [callCountList, hh1]
      | false =>
        have hasst : callCount (hist ++ [promptMessage p] ++
            [Message.assistant (if text = "" then none else some text) calls]) id =
            resultCount (hist ++ [promptMessage p] ++
              [Message.assistant (if text = "" then none else some text) calls]) id
              + callCountList calls id := by
          rw [callCount_append, resultCount_append, callCount_assistant,
            resultCount_assistant, hh1]
          omega
        simp only [turnLoop, hce, Bool.and_false, Bool.false_eq_true,
          if_false] at hend ⊢
        cases hb : processCalls env round calls 0 appr [] with
        | terminal results =>
          have hres : resultCountList results id = callCountList calls id := by
            have hpc := processCalls_counts env round id calls 0 appr []
            rw [hb] at hpc
            simpa [batchResults, resultCountList] using hpc
          simp only [hb] at hend ⊢
          rw [callCount_append, resultCount_append, callCount_toolResults,
            resultCount_toolResults, hres, hasst]
          omega
        | proceed results appr2 =>
          have hres : resultCountList results id = callCountList calls id := by
            have hpc := processCalls_counts env round id calls 0 appr []
            rw [hb] at hpc
            simpa [batchResults, resultCountList] using hpc
          simp only [hb] at hend ⊢
          cases hre : results.isEmpty with
          | true =>
            have hrnil : results = [] := by
              cases results with
              | nil => rfl
              | cons a b => simp [List.isEmpty] at hre
            subst hrnil
            simp only [hre, if_true] at hend ⊢
            rw [hasst]
            simp only [resultCountList, List.filter_nil, List.length_nil] at hres
            omega
          | false =>
            simp only [hre, Bool.false_eq_true, if_false] at hend ⊢
            exact ih (round + 1) (.results results) appr2 _
              (by rw [hasst]; simp [promptResultCount, hres]) hend

/-- C1 counterexample: the claim says every committed tool call is
paired with a result by turn end; but when the round after a tool batch
fails to stream, the pending results are discarded while the calls stay
committed — here call `id1` is committed once and answered zero times. -/
theorem tool_call_pairing_counterexample :
    callCount (handle_prompt demoEnv [demoToolRound, .errStream] "go"
      noApprovals []).1 "id1" = 1 ∧
    resultCount (handle_prompt demoEnv [demoToolRound, .errStream] "go"
      noApprovals []).1 "id1" = 0 := by
  decide

/-- C1 amended: whenever a turn ends normally or through a terminated
batch (rejection or mid-execution interrupt), every tool call committed
to the history is balanced by exactly one tool result per call id —
calls can outnumber results only when the turn is aborted by a stream
failure or a streaming-phase interruption, which discards the pending
batch results after their calls were committed. -/
theorem tool_call_pairing_amended (env : Env) (script : List RoundEvent)
    (u : String) (appr : Approvals) (hist : List Message) (id : String)
    (hbal : callCount hist id = resultCount hist id)
    (hend : (handle_prompt env script u appr hist).2.2 = .completed ∨
            (handle_prompt env script u appr hist).2.2 = .batchTerminated) :
    callCount (handle_prompt env script u appr hist).1 id =
      resultCount (handle_prompt env script u appr hist).1 id := by
  rw [handle_prompt] at hend ⊢
  exact turnLoop_pairing env id script 0 (.text u) appr hist
    (by simpa [promptResultCount] using hbal) hend

/-- Witness for C1 (amended): one executed tool batch followed by a
final plain-text round — the lone call is answered exactly once. -/
theorem tool_call_pairing_amended_witness :
    callCount (handle_prompt demoEnv [demoToolRound, .ok "done" []] "go"
      noApprovals []).1 "id1" =
    resultCount (handle_prompt demoEnv [demoToolRound, .ok "done" []] "go"
      noApprovals []).1 "id1" :=
  tool_call_pairing_amended demoEnv [demoToolRound, .ok "done" []] "go"
    noApprovals [] "id1" (by decide) (Or.inl (by decide))

end Agx
